import Mathlib

/-!
Verification model of the `template-custom-agent-go` repository.

The Go program is shallowly embedded: pure data types become Lean
structures; external effects (the Blaxel model-gateway HTTP call, the MCP
client calls, and Go's `encoding/json`) become oracle fields of an `Env`
record, so that one run of the agent loop is a pure function of the agent,
the environment and the user input.  Go `int` is modelled as `Int`;
Go maps (`map[string]string`, `map[string]*MCPClient`) are modelled as
lookup functions resp. association lists, with insertion overwriting.
-/

namespace TemplateAgent

/-- A JSON value, modelling Go's `interface{}` after `json.Unmarshal`. -/
inductive JsonVal : Type where
  | null : JsonVal
  | bool (b : Bool) : JsonVal
  | num (n : Int) : JsonVal
  | str (s : String) : JsonVal
  | arr (xs : List JsonVal) : JsonVal
  | obj (fields : List (String × JsonVal)) : JsonVal

/-- `blaxel.ToolCallFunction` (client.go): the function part of a tool call. -/
structure ToolCallFunction where
  name : String
  arguments : String
deriving DecidableEq, Repr

/-- `blaxel.ToolCall` (client.go): a tool call made by the AI. -/
structure ToolCall where
  id : String
  type : String
  function : ToolCallFunction
deriving DecidableEq, Repr

/-- `blaxel.ChatMessage` (client.go): a single message in the conversation. -/
structure ChatMessage where
  role : String
  content : String
  toolCalls : List ToolCall := []
  toolCallId : String := ""
deriving DecidableEq, Repr

/-- `blaxel.Function` (client.go): a function definition offered to the model.
`Parameters` is Go's `map[string]interface{}`, modelled as a field list. -/
structure Function where
  name : String
  description : String
  parameters : List (String × JsonVal)

/-- `blaxel.Tool` (client.go): a tool that can be called by the AI. -/
structure Tool where
  type : String
  function : Function

/-- `blaxel.Choice` (client.go): a single completion choice. -/
structure Choice where
  index : Int
  message : ChatMessage
  finishReason : String
deriving DecidableEq, Repr

/-- `blaxel.UsageInfo` (client.go): token usage information. -/
structure UsageInfo where
  promptTokens : Int
  completionTokens : Int
  totalTokens : Int
deriving DecidableEq, Repr

/-- `blaxel.ChatCompletionResponse` (client.go). -/
structure ChatCompletionResponse where
  id : String
  object : String
  created : Int
  model : String
  choices : List Choice
  usage : UsageInfo
deriving DecidableEq, Repr

/-- `blaxel.ChatCompletionRequest` (client.go), restricted to the fields the
agent loop fills in (`Messages`, `Tools`). -/
structure ChatCompletionRequest where
  messages : List ChatMessage
  tools : List Tool

/-- `mcp.Tool`: an MCP tool descriptor with name, description and input
schema (the schema is an opaque JSON-like value here). -/
structure MCPTool where
  name : String
  description : String
  inputSchema : JsonVal

/-- `blaxel.ToolWithServer` (mcp_manager.go): a tool paired with the name of
the MCP server that owns it. -/
structure ToolWithServer where
  tool : MCPTool
  serverName : String

/-- Oracles for the external effects the agent loop performs:
`chat` is `Client.CreateChatCompletion` (network call to the model gateway),
`jsonParse` is `json.Unmarshal` into `interface{}` (`none` = parse error),
`callTool` is `McpManager.CallTool` followed by `json.Marshal` of the result
content (server name, tool name, parsed params ↦ marshalled content or error),
`nowUnix` is `time.Now().Unix()`. -/
structure Env where
  chat : ChatCompletionRequest → Except String ChatCompletionResponse
  jsonParse : String → Option JsonVal
  callTool : String → String → Option JsonVal → Except String String
  nowUnix : Int

/-- Oracles for Go's `encoding/json` as used by `convertParameters`:
`marshal` is `json.Marshal` (`none` = error), `unmarshalMap` is
`json.Unmarshal` into `map[string]interface{}` (`none` = error). -/
structure JsonCodec where
  marshal : JsonVal → Option String
  unmarshalMap : String → Option (List (String × JsonVal))

/-- `agent.ToolManager` (tool manager file): tracks which server each tool
belongs to.  The Go `map[string]string` is modelled as a lookup function. -/
structure ToolManager where
  toolServerMap : String → Option String

/-- `NewToolManager`: a tool manager with an empty map. -/
def NewToolManager : ToolManager := ⟨fun _ => none⟩

/-- `ToolManager.GetServerForTool`: the server name for a given tool
(`none` plays the role of the Go `exists = false`). -/
def ToolManager.GetServerForTool (tm : ToolManager) (toolName : String) :
    Option String :=
  tm.toolServerMap toolName

/-- `convertParameters` (tool manager file): converts an MCP input schema to
the OpenAI parameters format by a marshal/unmarshal round trip; either
failure falls back to `{type: object, properties: {}}`. -/
def convertParameters (codec : JsonCodec) (inputSchema : JsonVal) :
    List (String × JsonVal) :=
  match codec.marshal inputSchema with
  | none => [("type", JsonVal.str "object"), ("properties", JsonVal.obj [])]
  | some jsonBytes =>
    match codec.unmarshalMap jsonBytes with
    | none => [("type", JsonVal.str "object"), ("properties", JsonVal.obj [])]
    | some result => result

/-- One step of the loop body of `ConvertMCPToolsToOpenAI`: append the
converted tool and record the server association (map insert overwrites). -/
def convertStep (codec : JsonCodec) (acc : List Tool × ToolManager)
    (tws : ToolWithServer) : List Tool × ToolManager :=
  let mcpTool := tws.tool
  let serverName := tws.serverName
  ( acc.1 ++ [{ type := "function"
              , function :=
                { name := mcpTool.name
                , description := mcpTool.description
                , parameters := convertParameters codec mcpTool.inputSchema } }]
  , ⟨fun k => if k = mcpTool.name then some serverName
              else acc.2.toolServerMap k⟩ )

/-- `ToolManager.ConvertMCPToolsToOpenAI`: converts MCP tools to OpenAI
format and rebuilds the server map from scratch (the Go method first clears
`toolServerMap` with a fresh `make`, then fills both outputs in one loop).
Returns the converted tools together with the updated manager. -/
def ToolManager.ConvertMCPToolsToOpenAI (_tm : ToolManager) (codec : JsonCodec)
    (mcpToolsWithServer : List ToolWithServer) : List Tool × ToolManager :=
  mcpToolsWithServer.foldl (convertStep codec) ([], NewToolManager)

/-- `agent.Agent` (agent.go).  The `blaxelClient` field is replaced by the
`Env` oracle passed to `Run`; Go `int` becomes `Int`. -/
structure Agent where
  name : String
  model : String
  tools : List Tool
  systemPrompt : String
  maxIterations : Int
  toolManager : ToolManager

/-- `agent.Config` (agent.go). -/
structure Config where
  name : String
  model : String
  systemPrompt : String
  maxIterations : Int

/-- `NewAgent` (agent.go): substitutes the default 10 when
`maxIterations <= 0` and the default prompt when the prompt is empty. -/
def NewAgent (config : Config) : Agent :=
  let maxIterations := if config.maxIterations ≤ 0 then 10 else config.maxIterations
  let systemPrompt :=
    if config.systemPrompt = "" then
      "You are a helpful AI assistant. Use the available tools when needed to help answer user questions."
    else config.systemPrompt
  { name := config.name
  , model := config.model
  , tools := []
  , systemPrompt := systemPrompt
  , maxIterations := maxIterations
  , toolManager := NewToolManager }

/-- `Agent.SetMaxIterations` (agent.go): unvalidated setter. -/
def Agent.SetMaxIterations (a : Agent) (m : Int) : Agent :=
  { a with maxIterations := m }

/-- `Agent.SetTools` (agent.go). -/
def Agent.SetTools (a : Agent) (ts : List Tool) : Agent :=
  { a with tools := ts }

/-- `Agent.SetToolManager` (agent.go). -/
def Agent.SetToolManager (a : Agent) (tm : ToolManager) : Agent :=
  { a with toolManager := tm }

/-- `Agent.createMaxIterationsResponse` (agent.go): the synthesized response
returned when the iteration budget is exhausted. -/
def Agent.createMaxIterationsResponse (a : Agent) (env : Env) :
    ChatCompletionResponse :=
  { id := "agent-" ++ a.name ++ "-" ++ toString env.nowUnix
  , object := "chat.completion"
  , created := env.nowUnix
  , model := a.model
  , choices :=
    [ { index := 0
      , message :=
        { role := "assistant"
        , content := "Maximum iterations reached. The agent may not have completed the task." }
      , finishReason := "length" } ]
  , usage := { promptTokens := 0, completionTokens := 0, totalTokens := 0 } }

/-- `Agent.executeToolCall` (agent.go): parse the arguments (an empty string
skips parsing and leaves the params nil), resolve the owning server through
the tool manager, and invoke the tool; the result is the marshalled content. -/
def Agent.executeToolCall (a : Agent) (env : Env) (toolCall : ToolCall) :
    Except String String :=
  match
    (if toolCall.function.arguments = "" then Except.ok none
     else
       match env.jsonParse toolCall.function.arguments with
       | none => Except.error "failed to parse tool arguments"
       | some v => Except.ok (some v) : Except String (Option JsonVal))
  with
  | Except.error e => Except.error e
  | Except.ok params =>
    match a.toolManager.GetServerForTool toolCall.function.name with
    | none => Except.error ("no server found for tool: " ++ toolCall.function.name)
    | some serverName =>
      match env.callTool serverName toolCall.function.name params with
      | Except.error e =>
        Except.error ("failed to call tool " ++ toolCall.function.name ++ ": " ++ e)
      | Except.ok content => Except.ok content

/-- Observation of one `Agent.Run`: the Go result pair, plus ghost
instrumentation — the conversation `messages` at the moment `Run` returned,
and counters of model-gateway calls and of executed tool calls. -/
structure RunResult where
  result : Except String ChatCompletionResponse
  messages : List ChatMessage
  gatewayCalls : Nat
  toolInvocations : Nat

/-- The inner `for _, toolCall := range assistantMessage.ToolCalls` loop of
`Agent.Run`: execute each call in order, appending a `tool` message per
success; the first failure aborts with the messages appended so far. -/
def execToolCalls (a : Agent) (env : Env) :
    List ToolCall → List ChatMessage → (Except String Unit × List ChatMessage × Nat)
  | [], msgs => (Except.ok (), msgs, 0)
  | tc :: rest, msgs =>
    match a.executeToolCall env tc with
    | Except.error e =>
      (Except.error ("failed to execute tool " ++ tc.function.name ++ ": " ++ e), msgs, 1)
    | Except.ok content =>
      let r := execToolCalls a env rest
        (msgs ++ [{ role := "tool", content := content, toolCallId := tc.id }])
      (r.1, r.2.1, r.2.2 + 1)

/-- The `for iteration := 1; iteration <= a.maxIterations` loop of
`Agent.Run`, by fuel on the remaining iterations.  Fuel 0 is the loop
falling through to `createMaxIterationsResponse`. -/
def runLoop (a : Agent) (env : Env) : Nat → List ChatMessage → RunResult
  | 0, msgs => ⟨Except.ok (a.createMaxIterationsResponse env), msgs, 0, 0⟩
  | fuel + 1, msgs =>
    match env.chat { messages := msgs, tools := a.tools } with
    | Except.error e =>
      ⟨Except.error ("failed to get AI response: " ++ e), msgs, 1, 0⟩
    | Except.ok resp =>
      match resp.choices with
      | [] => ⟨Except.error "no response choices returned", msgs, 1, 0⟩
      | choice :: _ =>
        let assistantMessage := choice.message
        let msgs1 := msgs ++ [assistantMessage]
        match assistantMessage.toolCalls with
        | _ :: _ =>
          match execToolCalls a env assistantMessage.toolCalls msgs1 with
          | (Except.error e, msgsE, n) => ⟨Except.error e, msgsE, 1, n⟩
          | (Except.ok _, msgs2, n) =>
            let r := runLoop a env fuel msgs2
            ⟨r.result, r.messages, r.gatewayCalls + 1, r.toolInvocations + n⟩
        | [] => ⟨Except.ok resp, msgs1, 1, 0⟩

/-- The initial conversation of `Agent.Run`: system prompt then user input. -/
def initMessages (a : Agent) (userInput : String) : List ChatMessage :=
  [ { role := "system", content := a.systemPrompt }
  , { role := "user", content := userInput } ]

/-- `Agent.Run` (agent.go).  For `maxIterations ≤ 0` the Go loop body never
executes (`Int.toNat` of a non-positive is 0), matching the source. -/
def Agent.Run (a : Agent) (env : Env) (userInput : String) : RunResult :=
  runLoop a env a.maxIterations.toNat (initMessages a userInput)

/-- A model of `blaxelMCP.MCPClient` reduced to the one observation the
manager makes of it: the outcome of `ListTools` (a list of tools, or an
error). -/
structure MCPClient where
  listToolsResult : Except String (List MCPTool)

/-- `blaxel.MCPManager` (mcp_manager.go).  The Go `map[string]*MCPClient`
is modelled as an association list of (server name, client); Go map
iteration order is unspecified, and none of the properties proved below
depend on the order chosen here. -/
structure MCPManager where
  servers : List (String × MCPClient)

/-- `MCPManager.ListAllTools` (mcp_manager.go): aggregate the tools of every
server whose `ListTools` succeeds, tagging each with its server name; a
server whose listing fails is skipped (logged in Go) and the overall call
never returns an error. -/
def MCPManager.ListAllTools (m : MCPManager) :
    Except String (List ToolWithServer) :=
  Except.ok <| m.servers.foldl
    (fun allTools sc =>
      match sc.2.listToolsResult with
      | Except.error _ => allTools
      | Except.ok tools =>
        allTools ++ tools.map (fun t => { tool := t, serverName := sc.1 }))
    []

/-- The response of the `GET /tools` gin handler, abstracted: either the
200 JSON body fields, or the error branch taken when `ListAllTools` fails
(which the error-handler middleware turns into a 500). -/
inductive ListToolsHandlerResp : Type where
  | ok (tools : List ToolWithServer) (totalCount : Nat) : ListToolsHandlerResp
  | serverError (msg : String) : ListToolsHandlerResp

/-- `Router.listTools` (tool routes file): call `ListAllTools` and either
take the error branch or answer 200 with the tools and their count. -/
def Router.listTools (m : MCPManager) : ListToolsHandlerResp :=
  match m.ListAllTools with
  | Except.error e => ListToolsHandlerResp.serverError ("failed to list tools: " ++ e)
  | Except.ok tools => ListToolsHandlerResp.ok tools tools.length

/-- The conversation invariant: at every message whose role is
`"assistant"`, the maximal run of `"tool"`-role messages that immediately
follows it carries exactly the `tool_call_id`s of that assistant message's
`tool_calls`, in the same order (hence also in equal number). -/
def convOK : List ChatMessage → Bool
  | [] => true
  | m :: rest =>
    (if m.role = "assistant" then
      decide ((rest.takeWhile (fun x => x.role == "tool")).map ChatMessage.toolCallId
        = m.toolCalls.map ToolCall.id)
     else true)
    && convOK rest

/-- A well-formed chunk of conversation as one loop iteration appends it:
an assistant (in any case non-`tool`) head followed by exactly its tool
results. -/
def GoodChunk (c : List ChatMessage) : Prop :=
  ∃ a block, c = a :: block ∧ a.role ≠ "tool" ∧
    (∀ m ∈ block, m.role = "tool") ∧
    block.map ChatMessage.toolCallId = a.toolCalls.map ToolCall.id

/-- The head of the list, if any, is not a tool message (boundary condition
used by the conversation-invariant proof). -/
def HeadNotTool : List ChatMessage → Prop
  | [] => True
  | m :: _ => m.role ≠ "tool"

/-- Sample environment used by concrete witnesses. -/
def envEx : Env :=
  { chat := fun _ => Except.error "no model"
  , jsonParse := fun _ => none
  , callTool := fun _ _ _ => Except.error "no tool"
  , nowUnix := 0 }

/-- Sample agent used by concrete witnesses. -/
def agentEx : Agent :=
  { name := "ex", model := "m", tools := [], systemPrompt := "p"
  , maxIterations := 10, toolManager := NewToolManager }

/-- Sample codec used by concrete witnesses: marshalling always succeeds
with a fixed byte string, and unmarshalling recovers a fixed object. -/
def codecEx : JsonCodec :=
  { marshal := fun _ => some "bytes"
  , unmarshalMap := fun _ => some [("type", JsonVal.str "object")] }

/-- Sample catalog used by concrete witnesses. -/
def catalogEx : List ToolWithServer :=
  [ { tool := { name := "t1", description := "d1", inputSchema := JsonVal.null }
    , serverName := "s1" }
  , { tool := { name := "t2", description := "d2", inputSchema := JsonVal.obj [] }
    , serverName := "s2" } ]

/-- The tools contributed by one pool entry to `ListAllTools`: none when
its listing fails, its tools tagged with the server name otherwise.  This
is a proof-side characterization of the aggregation loop's body. -/
def serverTools (sc : String × MCPClient) : List ToolWithServer :=
  match sc.2.listToolsResult with
  | Except.error _ => []
  | Except.ok tools => tools.map (fun t => { tool := t, serverName := sc.1 })

/-- Sample catalog with a tool-name collision, used by concrete witnesses. -/
def dupCatalog : List ToolWithServer :=
  [ { tool := { name := "t", description := "", inputSchema := JsonVal.null }
    , serverName := "A" }
  , { tool := { name := "t", description := "", inputSchema := JsonVal.null }
    , serverName := "B" } ]

/-- Sample MCP tool used by concrete witnesses. -/
def mcpToolEx : MCPTool := { name := "t1", description := "d", inputSchema := JsonVal.null }

/-- Sample MCP client whose listing succeeds. -/
def goodClient : MCPClient := { listToolsResult := Except.ok [mcpToolEx] }

/-- Sample pool with one healthy backend and one whose listing fails. -/
def poolEx : MCPManager :=
  { servers := [("good", goodClient), ("bad", { listToolsResult := Except.error "boom" })] }

/-- Sample model response carrying a final (tool-call-free) answer. -/
def respNoTools : ChatCompletionResponse :=
  { id := "r1", object := "chat.completion", created := 1, model := "m"
  , choices :=
    [ { index := 0
      , message := { role := "assistant", content := "4" }
      , finishReason := "stop" } ]
  , usage := { promptTokens := 1, completionTokens := 1, totalTokens := 2 } }

/-- Sample environment whose model always gives the final answer at once. -/
def envNoTools : Env :=
  { chat := fun _ => Except.ok respNoTools
  , jsonParse := fun _ => none
  , callTool := fun _ _ _ => Except.error "no tool"
  , nowUnix := 0 }

/-- Sample tool call with empty arguments. -/
def toolCallEx : ToolCall :=
  { id := "1", type := "function", function := { name := "t", arguments := "" } }

/-- Sample model response that requests one tool call. -/
def respToolCall : ChatCompletionResponse :=
  { id := "r2", object := "chat.completion", created := 1, model := "m"
  , choices :=
    [ { index := 0
      , message := { role := "assistant", content := "", toolCalls := [toolCallEx] }
      , finishReason := "tool_calls" } ]
  , usage := { promptTokens := 0, completionTokens := 0, totalTokens := 0 } }

/-- Sample environment whose model always requests a tool call and whose
tools always succeed. -/
def envToolCalls : Env :=
  { chat := fun _ => Except.ok respToolCall
  , jsonParse := fun _ => some JsonVal.null
  , callTool := fun _ _ _ => Except.ok "res"
  , nowUnix := 0 }

/-- Sample agent whose tool manager routes every tool name. -/
def agentRouted : Agent :=
  { name := "ex", model := "m", tools := [], systemPrompt := "p"
  , maxIterations := 2, toolManager := ⟨fun _ => some "srv"⟩ }

/-- Sample tool call with non-empty, unparseable arguments. -/
def badToolCall : ToolCall :=
  { id := "9", type := "function", function := { name := "t", arguments := "not json" } }

/-- Sample model response requesting one tool call with bad arguments. -/
def respBadCall : ChatCompletionResponse :=
  { id := "r3", object := "chat.completion", created := 1, model := "m"
  , choices :=
    [ { index := 0
      , message := { role := "assistant", content := "", toolCalls := [badToolCall] }
      , finishReason := "tool_calls" } ]
  , usage := { promptTokens := 0, completionTokens := 0, totalTokens := 0 } }

/-- Sample environment whose JSON parser always fails. -/
def envBadParse : Env :=
  { chat := fun _ => Except.ok respBadCall
  , jsonParse := fun _ => none
  , callTool := fun _ _ _ => Except.ok "res"
  , nowUnix := 0 }

/-! ### Theorems -/

/-- Helper for C8 and others: nothing beyond the claims below is proved
about `NewAgent`'s prompt handling. -/
theorem NewAgent_maxIterations_pos (config : Config) :
    1 ≤ (NewAgent config).maxIterations := by
  by_cases h : config.maxIterations ≤ 0
  · simp [NewAgent, h]
  · simp [NewAgent, h]
    omega

/-- C8: constructing an agent with `max_iterations ≤ 0` substitutes the
default of 10, so the iteration budget is 10 and in particular at least 1
(never "run zero iterations"). -/
theorem NewAgent_default_substitution (config : Config)
    (h : config.maxIterations ≤ 0) :
    (NewAgent config).maxIterations = 10 ∧
    1 ≤ (NewAgent config).maxIterations := by
  refine ⟨by simp [NewAgent, h], NewAgent_maxIterations_pos config⟩

/-- Witness for C8 at the concrete configuration `max_iterations = 0`. -/
theorem NewAgent_default_substitution_witness :
    (NewAgent { name := "a", model := "m", systemPrompt := "", maxIterations := 0 }).maxIterations = 10 ∧
    1 ≤ (NewAgent { name := "a", model := "m", systemPrompt := "", maxIterations := 0 }).maxIterations :=
  NewAgent_default_substitution _ (by decide)

/-- C9: `SetMaxIterations` does not validate its argument; after setting a
non-positive bound, `Run` makes no model-gateway call, executes no tool
call, and immediately returns the synthesized max-iterations response
(whose sole choice is an assistant message with finish reason "length" and
zero usage) with no error. -/
theorem SetMaxIterations_nonpositive_run (a : Agent) (env : Env)
    (input : String) (k : Int) (h : k ≤ 0) :
    ((a.SetMaxIterations k).Run env input).result
        = Except.ok ((a.SetMaxIterations k).createMaxIterationsResponse env) ∧
    ((a.SetMaxIterations k).Run env input).gatewayCalls = 0 ∧
    ((a.SetMaxIterations k).Run env input).toolInvocations = 0 ∧
    ((a.SetMaxIterations k).createMaxIterationsResponse env).choices.map
        (fun ch => ch.message.role) = ["assistant"] ∧
    ((a.SetMaxIterations k).createMaxIterationsResponse env).choices.map
        Choice.finishReason = ["length"] ∧
    ((a.SetMaxIterations k).createMaxIterationsResponse env).usage
        = { promptTokens := 0, completionTokens := 0, totalTokens := 0 } := by
  have hk : k.toNat = 0 := Int.toNat_of_nonpos h
  simp [Agent.Run, Agent.SetMaxIterations, hk, runLoop,
    Agent.createMaxIterationsResponse]

/-- Witness for C9 at a concrete agent and `k = -3`. -/
theorem SetMaxIterations_nonpositive_run_witness :
    ((agentEx.SetMaxIterations (-3)).Run envEx "hi").result
        = Except.ok ((agentEx.SetMaxIterations (-3)).createMaxIterationsResponse envEx) ∧
    ((agentEx.SetMaxIterations (-3)).Run envEx "hi").gatewayCalls = 0 ∧
    ((agentEx.SetMaxIterations (-3)).Run envEx "hi").toolInvocations = 0 ∧
    ((agentEx.SetMaxIterations (-3)).createMaxIterationsResponse envEx).choices.map
        (fun ch => ch.message.role) = ["assistant"] ∧
    ((agentEx.SetMaxIterations (-3)).createMaxIterationsResponse envEx).choices.map
        Choice.finishReason = ["length"] ∧
    ((agentEx.SetMaxIterations (-3)).createMaxIterationsResponse envEx).usage
        = { promptTokens := 0, completionTokens := 0, totalTokens := 0 } :=
  SetMaxIterations_nonpositive_run agentEx envEx "hi" (-3) (by decide)

/-- Helper: the server map produced by the conversion fold answers lookups
by the last matching catalog entry, falling back to the accumulator's map. -/
theorem convert_foldl_lookup (codec : JsonCodec) (l : List ToolWithServer)
    (acc : List Tool × ToolManager) (name : String) :
    ((l.foldl (convertStep codec) acc).2).toolServerMap name =
      ((l.reverse.find? (fun tws => tws.tool.name == name)).map
        ToolWithServer.serverName).or (acc.2.toolServerMap name) := by
  induction l generalizing acc with
  | nil => simp
  | cons hd tl ih =>
    rw [List.foldl_cons, ih, List.reverse_cons, List.find?_append]
    cases hfind : tl.reverse.find? (fun tws => tws.tool.name == name) with
    | some tws => simp [Option.or]
    | none =>
      by_cases h : hd.tool.name = name
      · have hb : (hd.tool.name == name) = true := by simp [h]
        simp [List.find?, h, hb, convertStep, Option.or]
      · have h' : ¬ name = hd.tool.name := fun hh => h hh.symm
        have hb : (hd.tool.name == name) = false := by simp [h]
        simp [List.find?, h, h', hb, convertStep, Option.or]

/-- Helper: the conversion fold appends the converted tools in order. -/
theorem convert_foldl_tools (codec : JsonCodec) (l : List ToolWithServer)
    (acc : List Tool × ToolManager) :
    (l.foldl (convertStep codec) acc).1 =
      acc.1 ++ l.map (fun tws =>
        { type := "function"
        , function :=
          { name := tws.tool.name
          , description := tws.tool.description
          , parameters := convertParameters codec tws.tool.inputSchema } }) := by
  induction l generalizing acc with
  | nil => simp
  | cons hd tl ih => simp [convertStep, ih]

/-- C4: after a registry build, a tool name routes to the server of the
last catalog entry carrying that name (`find?` on the reversed catalog),
so lookups succeed exactly for the names present in the given catalog —
independently of whatever the manager contained before the build — and on
a name collision the later entry wins. -/
theorem ConvertMCPToolsToOpenAI_routing (tm : ToolManager) (codec : JsonCodec)
    (catalog : List ToolWithServer) (name : String) :
    (tm.ConvertMCPToolsToOpenAI codec catalog).2.GetServerForTool name =
      (catalog.reverse.find? (fun tws => tws.tool.name == name)).map
        ToolWithServer.serverName ∧
    ((tm.ConvertMCPToolsToOpenAI codec catalog).2.GetServerForTool name).isSome =
      catalog.any (fun tws => tws.tool.name == name) := by
  have h := convert_foldl_lookup codec catalog ([], NewToolManager) name
  have hmain :
      (tm.ConvertMCPToolsToOpenAI codec catalog).2.GetServerForTool name =
        (catalog.reverse.find? (fun tws => tws.tool.name == name)).map
          ToolWithServer.serverName := by
    simpa [ToolManager.ConvertMCPToolsToOpenAI, ToolManager.GetServerForTool,
      NewToolManager, Option.or_none] using h
  refine ⟨hmain, ?_⟩
  rw [hmain]
  rw [show ((catalog.reverse.find? (fun tws => tws.tool.name == name)).map
      ToolWithServer.serverName) =
      ToolWithServer.serverName <$> (catalog.reverse.find?
        (fun tws => tws.tool.name == name)) from rfl]
  rw [Option.isSome_map]
  cases hs : (catalog.reverse.find? (fun tws => tws.tool.name == name)).isSome with
  | true =>
    rw [List.find?_isSome] at hs
    obtain ⟨x, hx, hpx⟩ := hs
    exact (List.any_eq_true.2 ⟨x, List.mem_reverse.1 hx, hpx⟩).symm
  | false =>
    symm
    rw [Bool.eq_false_iff] at hs ⊢
    intro hany
    obtain ⟨x, hx, hpx⟩ := List.any_eq_true.1 hany
    exact hs (List.find?_isSome.2 ⟨x, List.mem_reverse.2 hx, hpx⟩)

/-- Witness for C4: on a colliding catalog the later backend wins, and a
name absent from the catalog is unroutable. -/
theorem ConvertMCPToolsToOpenAI_routing_witness :
    (NewToolManager.ConvertMCPToolsToOpenAI codecEx dupCatalog).2.GetServerForTool "t"
      = some "B" ∧
    (NewToolManager.ConvertMCPToolsToOpenAI codecEx dupCatalog).2.GetServerForTool "zzz"
      = none := by
  have h1 := (ConvertMCPToolsToOpenAI_routing NewToolManager codecEx dupCatalog "t").1
  have h2 := (ConvertMCPToolsToOpenAI_routing NewToolManager codecEx dupCatalog "zzz").1
  rw [h1, h2]
  exact ⟨rfl, rfl⟩

/-- C7: the conversion copies every catalog entry's name and description
verbatim and sets its parameters to the structural transform of its input
schema; a schema whose marshalling fails, or whose marshalled bytes do not
unmarshal into an object, yields the empty open-object fallback instead of
failing the conversion, and a schema whose round trip succeeds yields the
round-tripped object. -/
theorem ConvertMCPToolsToOpenAI_shape (tm : ToolManager) (codec : JsonCodec)
    (catalog : List ToolWithServer) :
    ((tm.ConvertMCPToolsToOpenAI codec catalog).1 =
      catalog.map (fun tws =>
        { type := "function"
        , function :=
          { name := tws.tool.name
          , description := tws.tool.description
          , parameters := convertParameters codec tws.tool.inputSchema } })) ∧
    (∀ s, codec.marshal s = none →
      convertParameters codec s =
        [("type", JsonVal.str "object"), ("properties", JsonVal.obj [])]) ∧
    (∀ s b, codec.marshal s = some b → codec.unmarshalMap b = none →
      convertParameters codec s =
        [("type", JsonVal.str "object"), ("properties", JsonVal.obj [])]) ∧
    (∀ s b r, codec.marshal s = some b → codec.unmarshalMap b = some r →
      convertParameters codec s = r) := by
  refine ⟨?_, ?_, ?_, ?_⟩
  · have h := convert_foldl_tools codec catalog ([], NewToolManager)
    simpa [ToolManager.ConvertMCPToolsToOpenAI] using h
  · intro s hm
    simp [convertParameters, hm]
  · intro s b hm hu
    simp [convertParameters, hm, hu]
  · intro s b r hm hu
    simp [convertParameters, hm, hu]

/-- Witness for C7: a two-entry catalog converted with a codec whose
round trip succeeds, plus the fallback evaluated under a failing codec. -/
theorem ConvertMCPToolsToOpenAI_shape_witness :
    ((NewToolManager.ConvertMCPToolsToOpenAI codecEx catalogEx).1 =
      catalogEx.map (fun tws =>
        { type := "function"
        , function :=
          { name := tws.tool.name
          , description := tws.tool.description
          , parameters := convertParameters codecEx tws.tool.inputSchema } })) ∧
    convertParameters { marshal := fun _ => none, unmarshalMap := fun _ => none }
        JsonVal.null =
      [("type", JsonVal.str "object"), ("properties", JsonVal.obj [])] ∧
    convertParameters { marshal := fun _ => some "x", unmarshalMap := fun _ => none }
        JsonVal.null =
      [("type", JsonVal.str "object"), ("properties", JsonVal.obj [])] ∧
    convertParameters codecEx JsonVal.null = [("type", JsonVal.str "object")] :=
  ⟨(ConvertMCPToolsToOpenAI_shape NewToolManager codecEx catalogEx).1,
   (ConvertMCPToolsToOpenAI_shape NewToolManager
      { marshal := fun _ => none, unmarshalMap := fun _ => none } []).2.1
      JsonVal.null rfl,
   (ConvertMCPToolsToOpenAI_shape NewToolManager
      { marshal := fun _ => some "x", unmarshalMap := fun _ => none } []).2.2.1
      JsonVal.null "x" rfl rfl,
   (ConvertMCPToolsToOpenAI_shape NewToolManager codecEx []).2.2.2
      JsonVal.null "bytes" [("type", JsonVal.str "object")] rfl rfl⟩

/-- Helper: the aggregation fold equals append of per-server contributions. -/
theorem listAll_foldl_eq (l : List (String × MCPClient))
    (init : List ToolWithServer) :
    l.foldl
      (fun allTools sc =>
        match sc.2.listToolsResult with
        | Except.error _ => allTools
        | Except.ok tools =>
          allTools ++ tools.map (fun t => { tool := t, serverName := sc.1 }))
      init = init ++ l.flatMap serverTools := by
  induction l generalizing init with
  | nil => simp
  | cons hd tl ih =>
    rw [List.foldl_cons, ih, List.flatMap_cons]
    cases h : hd.2.listToolsResult with
    | error e => simp [serverTools, h]
    | ok tools => simp [serverTools, h]

/-- Helper: `ListAllTools` always succeeds, with the concatenation of the
successfully-listed servers' tagged tools. -/
theorem ListAllTools_eq (m : MCPManager) :
    m.ListAllTools = Except.ok (m.servers.flatMap serverTools) := by
  unfold MCPManager.ListAllTools
  rw [listAll_foldl_eq]
  simp

/-- C6: `ListAllTools` returns (without error) exactly the union of the
tools of the backends whose listing succeeds: a tool/server pair is in the
result precisely when some pool entry with that server name listed
successfully and contains the tool; a backend whose listing errors
contributes nothing and does not fail the call. -/
theorem ListAllTools_union (m : MCPManager) :
    ∃ ts, m.ListAllTools = Except.ok ts ∧
      ∀ (t : MCPTool) (sn : String),
        ({ tool := t, serverName := sn } : ToolWithServer) ∈ ts ↔
          ∃ c, (sn, c) ∈ m.servers ∧
            ∃ tools, c.listToolsResult = Except.ok tools ∧ t ∈ tools := by
  refine ⟨m.servers.flatMap serverTools, ListAllTools_eq m, ?_⟩
  intro t sn
  rw [List.mem_flatMap]
  constructor
  · rintro ⟨⟨n, c⟩, hmem, hin⟩
    unfold serverTools at hin
    cases h : c.listToolsResult with
    | error e => rw [h] at hin; simp at hin
    | ok tools =>
      rw [h] at hin
      simp only [List.mem_map] at hin
      obtain ⟨t', ht', heq⟩ := hin
      cases heq
      exact ⟨c, hmem, tools, h, ht'⟩
  · rintro ⟨c, hmem, tools, hok, ht⟩
    refine ⟨(sn, c), hmem, ?_⟩
    unfold serverTools
    rw [hok]
    exact List.mem_map.2 ⟨t, ht, rfl⟩

/-- Witness for C6: on the sample pool the failing backend is skipped and
the healthy backend's tool is present, tagged with its server name. -/
theorem ListAllTools_union_witness :
    poolEx.ListAllTools
      = Except.ok [{ tool := mcpToolEx, serverName := "good" }] ∧
    (({ tool := mcpToolEx, serverName := "good" } : ToolWithServer)
      ∈ [({ tool := mcpToolEx, serverName := "good" } : ToolWithServer)]) := by
  obtain ⟨ts, h1, h2⟩ := ListAllTools_union poolEx
  have h0 : poolEx.ListAllTools
      = Except.ok [{ tool := mcpToolEx, serverName := "good" }] := rfl
  refine ⟨h0, ?_⟩
  have hts : ts = [{ tool := mcpToolEx, serverName := "good" }] := by
    rw [h0] at h1
    exact (Except.ok.inj h1).symm
  subst hts
  exact (h2 mcpToolEx "good").2
    ⟨goodClient, by simp [poolEx], [mcpToolEx], rfl, by simp⟩

/-- C10: the `GET /tools` handler's error branch is unreachable, because
`ListAllTools` never returns an error: the handler always answers with the
tool list and its count. -/
theorem listTools_handler_total (m : MCPManager) :
    (∃ ts, Router.listTools m = ListToolsHandlerResp.ok ts ts.length) ∧
    ∀ msg, Router.listTools m ≠ ListToolsHandlerResp.serverError msg := by
  refine ⟨⟨m.servers.flatMap serverTools, ?_⟩, ?_⟩
  · rw [Router.listTools, ListAllTools_eq m]
  · intro msg
    rw [Router.listTools, ListAllTools_eq m]
    simp

/-- Witness for C10: on the sample pool the handler answers 200 with the
one listed tool, and does not take the error branch. -/
theorem listTools_handler_total_witness :
    Router.listTools poolEx
      = ListToolsHandlerResp.ok [{ tool := mcpToolEx, serverName := "good" }] 1 ∧
    Router.listTools poolEx
      ≠ ListToolsHandlerResp.serverError "failed to list tools: boom" := by
  obtain ⟨_, h2⟩ := listTools_handler_total poolEx
  exact ⟨rfl, h2 "failed to list tools: boom"⟩

/-- C3: when the model's first response has at least one choice and that
choice's message requests no tool calls, the loop terminates after exactly
one model-gateway call and returns that response value unchanged. -/
theorem Run_first_response_final (a : Agent) (env : Env) (input : String)
    (resp : ChatCompletionResponse) (c : Choice) (cs : List Choice)
    (hiter : 1 ≤ a.maxIterations)
    (hchat : env.chat { messages := initMessages a input, tools := a.tools }
      = Except.ok resp)
    (hchoices : resp.choices = c :: cs)
    (hnotools : c.message.toolCalls = []) :
    (a.Run env input).result = Except.ok resp ∧
    (a.Run env input).gatewayCalls = 1 := by
  obtain ⟨f, hf⟩ : ∃ f, a.maxIterations.toNat = f + 1 :=
    ⟨a.maxIterations.toNat - 1, by omega⟩
  rw [Agent.Run, hf]
  simp [runLoop, hchat, hchoices, hnotools]

/-- Witness for C3 at a concrete agent and a one-shot answering model. -/
theorem Run_first_response_final_witness :
    (agentEx.Run envNoTools "2+2?").result = Except.ok respNoTools ∧
    (agentEx.Run envNoTools "2+2?").gatewayCalls = 1 :=
  Run_first_response_final agentEx envNoTools "2+2?" respNoTools
    { index := 0
    , message := { role := "assistant", content := "4" }
    , finishReason := "stop" } []
    (by decide) rfl rfl rfl

/-- Helper: when every tool call executes successfully, the inner tool loop
succeeds, appending one tool message per call. -/
theorem execToolCalls_all_ok (a : Agent) (env : Env)
    (hexec : ∀ tc, ∃ s, a.executeToolCall env tc = Except.ok s) :
    ∀ tcs msgs, ∃ msgs' n,
      execToolCalls a env tcs msgs = (Except.ok (), msgs', n) := by
  intro tcs
  induction tcs with
  | nil => intro msgs; exact ⟨msgs, 0, rfl⟩
  | cons tc rest ih =>
    intro msgs
    obtain ⟨s, hs⟩ := hexec tc
    obtain ⟨msgs', n, hr⟩ :=
      ih (msgs ++ [{ role := "tool", content := s, toolCallId := tc.id }])
    exact ⟨msgs', n + 1, by simp [execToolCalls, hs, hr]⟩

/-- Helper: with a model that always requests at least one tool call and
tools that always succeed, the loop consumes all its fuel, making one
gateway call per unit of fuel, and ends in the synthesized response. -/
theorem runLoop_exhausts (a : Agent) (env : Env)
    (hchat : ∀ req, ∃ resp c cs, env.chat req = Except.ok resp ∧
      resp.choices = c :: cs ∧ c.message.toolCalls ≠ [])
    (hexec : ∀ tc, ∃ s, a.executeToolCall env tc = Except.ok s) :
    ∀ fuel msgs,
      (runLoop a env fuel msgs).result
        = Except.ok (a.createMaxIterationsResponse env) ∧
      (runLoop a env fuel msgs).gatewayCalls = fuel := by
  intro fuel
  induction fuel with
  | zero => intro msgs; exact ⟨rfl, rfl⟩
  | succ f ih =>
    intro msgs
    obtain ⟨resp, c, cs, hc, hch, htc⟩ :=
      hchat { messages := msgs, tools := a.tools }
    obtain ⟨t, ts, hts⟩ := List.exists_cons_of_ne_nil htc
    obtain ⟨msgs', n, hr⟩ :=
      execToolCalls_all_ok a env hexec c.message.toolCalls (msgs ++ [c.message])
    rw [hts] at hr
    have hrec := ih msgs'
    constructor
    · simp [runLoop, hc, hch, hts, hr, hrec.1]
    · simp [runLoop, hc, hch, hts, hr, hrec.2]

/-- C2: with `max_iterations = N ≥ 1`, a model that requests at least one
tool call on every iteration, and tools that always succeed, `Run` makes
exactly `N` model-gateway calls and returns, with no error, the
synthesized response whose single choice is an assistant message with
finish reason "length" and whose usage counters are all zero. -/
theorem Run_exhausts_budget (a : Agent) (env : Env) (input : String) (N : Nat)
    (_hN : 1 ≤ N) (hiter : a.maxIterations = (N : Int))
    (hchat : ∀ req, ∃ resp c cs, env.chat req = Except.ok resp ∧
      resp.choices = c :: cs ∧ c.message.toolCalls ≠ [])
    (hexec : ∀ tc, ∃ s, a.executeToolCall env tc = Except.ok s) :
    (a.Run env input).result = Except.ok (a.createMaxIterationsResponse env) ∧
    (a.Run env input).gatewayCalls = N ∧
    (a.createMaxIterationsResponse env).choices.map
      (fun ch => ch.message.role) = ["assistant"] ∧
    (a.createMaxIterationsResponse env).choices.map
      Choice.finishReason = ["length"] ∧
    (a.createMaxIterationsResponse env).usage
      = { promptTokens := 0, completionTokens := 0, totalTokens := 0 } := by
  have h := runLoop_exhausts a env hchat hexec
    a.maxIterations.toNat (initMessages a input)
  have ht : a.maxIterations.toNat = N := by
    rw [hiter]; exact Int.toNat_natCast N
  refine ⟨?_, ?_, rfl, rfl, rfl⟩
  · rw [Agent.Run]; exact h.1
  · rw [Agent.Run, h.2, ht]

/-- Witness for C2 at `N = 2` with a constantly tool-calling model. -/
theorem Run_exhausts_budget_witness :
    (agentRouted.Run envToolCalls "go").result
      = Except.ok (agentRouted.createMaxIterationsResponse envToolCalls) ∧
    (agentRouted.Run envToolCalls "go").gatewayCalls = 2 ∧
    (agentRouted.createMaxIterationsResponse envToolCalls).choices.map
      (fun ch => ch.message.role) = ["assistant"] ∧
    (agentRouted.createMaxIterationsResponse envToolCalls).choices.map
      Choice.finishReason = ["length"] ∧
    (agentRouted.createMaxIterationsResponse envToolCalls).usage
      = { promptTokens := 0, completionTokens := 0, totalTokens := 0 } :=
  Run_exhausts_budget agentRouted envToolCalls "go" 2 (by decide) rfl
    (fun _ => ⟨respToolCall,
      { index := 0
      , message := { role := "assistant", content := "", toolCalls := [toolCallEx] }
      , finishReason := "tool_calls" }, [], rfl, rfl, by decide⟩)
    (fun tc => ⟨"res", by
      by_cases h : tc.function.arguments = ""
      · simp [Agent.executeToolCall, h, envToolCalls, agentRouted,
          ToolManager.GetServerForTool]
      · simp [Agent.executeToolCall, h, envToolCalls, agentRouted,
          ToolManager.GetServerForTool]⟩)

/-- Helper: the inner tool loop fails as soon as it reaches a failing call,
after executing the successful prefix. -/
theorem execToolCalls_error_at (a : Agent) (env : Env) (tc : ToolCall)
    (pre post : List ToolCall)
    (hpre : ∀ p ∈ pre, ∃ s, a.executeToolCall env p = Except.ok s)
    (htc : ∃ e, a.executeToolCall env tc = Except.error e) :
    ∀ msgs, ∃ e msgs' n,
      execToolCalls a env (pre ++ tc :: post) msgs = (Except.error e, msgs', n) := by
  induction pre with
  | nil =>
    intro msgs
    obtain ⟨e, he⟩ := htc
    exact ⟨"failed to execute tool " ++ tc.function.name ++ ": " ++ e, msgs, 1,
      by simp [execToolCalls, he]⟩
  | cons p ps ih =>
    intro msgs
    obtain ⟨s, hs⟩ := hpre p (List.mem_cons_self p ps)
    obtain ⟨e, msgs', n, hr⟩ :=
      ih (fun q hq => hpre q (List.mem_cons_of_mem p hq))
        (msgs ++ [{ role := "tool", content := s, toolCallId := p.id }])
    exact ⟨e, msgs', n + 1, by simp [execToolCalls, hs, hr]⟩

/-- C5: an empty arguments string is treated as "no arguments": parsing is
skipped (the JSON-parse oracle is irrelevant) and the call proceeds — in
particular it succeeds when routing and invocation succeed; a non-empty
arguments string that fails to parse makes `executeToolCall` fail, and any
such call reached by the loop makes the whole run return an error instead
of being skipped. -/
theorem executeToolCall_arguments (a : Agent) (env : Env) :
    (∀ tc p, tc.function.arguments = "" →
      a.executeToolCall { env with jsonParse := p } tc
        = a.executeToolCall env tc) ∧
    (∀ tc srv s, tc.function.arguments = "" →
      a.toolManager.GetServerForTool tc.function.name = some srv →
      env.callTool srv tc.function.name none = Except.ok s →
      a.executeToolCall env tc = Except.ok s) ∧
    (∀ tc, tc.function.arguments ≠ "" →
      env.jsonParse tc.function.arguments = none →
      ∃ e, a.executeToolCall env tc = Except.error e) ∧
    (∀ input resp c cs pre tc post,
      1 ≤ a.maxIterations →
      env.chat { messages := initMessages a input, tools := a.tools }
        = Except.ok resp →
      resp.choices = c :: cs →
      c.message.toolCalls = pre ++ tc :: post →
      (∀ p ∈ pre, ∃ s, a.executeToolCall env p = Except.ok s) →
      tc.function.arguments ≠ "" →
      env.jsonParse tc.function.arguments = none →
      ∃ e, (a.Run env input).result = Except.error e) := by
  refine ⟨?_, ?_, ?_, ?_⟩
  · intro tc p h
    simp [Agent.executeToolCall, h]
  · intro tc srv s h hsrv hcall
    simp [Agent.executeToolCall, h, ToolManager.GetServerForTool] at hsrv ⊢
    simp [hsrv, hcall]
  · intro tc h hparse
    exact ⟨"failed to parse tool arguments", by simp [Agent.executeToolCall, h, hparse]⟩
  · intro input resp c cs pre tc post hiter hchat hchoices htcs hpre hne hparse
    obtain ⟨f, hf⟩ : ∃ f, a.maxIterations.toNat = f + 1 :=
      ⟨a.maxIterations.toNat - 1, by omega⟩
    have htcfail : ∃ e, a.executeToolCall env tc = Except.error e :=
      ⟨"failed to parse tool arguments", by simp [Agent.executeToolCall, hne, hparse]⟩
    obtain ⟨e, msgs', n, hr⟩ := execToolCalls_error_at a env tc pre post hpre htcfail
      (initMessages a input ++ [c.message])
    rw [← htcs] at hr
    obtain ⟨t, ts, hts⟩ : ∃ t ts, c.message.toolCalls = t :: ts :=
      List.exists_cons_of_ne_nil (by simp [htcs])
    rw [hts] at hr
    refine ⟨e, ?_⟩
    rw [Agent.Run, hf]
    simp [runLoop, hchat, hchoices, hts, hr]

/-- Witness for C5: empty arguments are parser-independent and succeed on
the routed sample agent; the unparseable sample call fails and aborts a
concrete run. -/
theorem executeToolCall_arguments_witness :
    (agentRouted.executeToolCall
        { envBadParse with jsonParse := fun _ => some JsonVal.null } toolCallEx
      = agentRouted.executeToolCall envBadParse toolCallEx) ∧
    (agentRouted.executeToolCall envBadParse toolCallEx = Except.ok "res") ∧
    (∃ e, agentRouted.executeToolCall envBadParse badToolCall = Except.error e) ∧
    (∃ e, (agentRouted.Run envBadParse "go").result = Except.error e) :=
  ⟨(executeToolCall_arguments agentRouted envBadParse).1 toolCallEx
      (fun _ => some JsonVal.null) rfl,
   (executeToolCall_arguments agentRouted envBadParse).2.1 toolCallEx "srv" "res"
      rfl rfl rfl,
   (executeToolCall_arguments agentRouted envBadParse).2.2.1 badToolCall
      (by decide) rfl,
   (executeToolCall_arguments agentRouted envBadParse).2.2.2 "go" respBadCall
      { index := 0
      , message := { role := "assistant", content := "", toolCalls := [badToolCall] }
      , finishReason := "tool_calls" } [] [] badToolCall []
      (by decide) rfl rfl rfl (fun p hp => absurd hp (List.not_mem_nil p))
      (by decide) rfl⟩

/-- Helper: a successful inner tool loop appends exactly one tool message
per executed call, carrying the calls' ids in order. -/
theorem execToolCalls_ok_block (a : Agent) (env : Env) :
    ∀ tcs msgs msgs' n,
      execToolCalls a env tcs msgs = (Except.ok (), msgs', n) →
      ∃ block, msgs' = msgs ++ block ∧ (∀ m ∈ block, m.role = "tool") ∧
        block.map ChatMessage.toolCallId = tcs.map ToolCall.id := by
  intro tcs
  induction tcs with
  | nil =>
    intro msgs msgs' n h
    simp only [execToolCalls, Prod.mk.injEq] at h
    exact ⟨[], by simp [h.2.1.symm], by simp, by simp⟩
  | cons tc rest ih =>
    intro msgs msgs' n h
    cases he : a.executeToolCall env tc with
    | error e => simp [execToolCalls, he] at h
    | ok s =>
      rcases hrec : execToolCalls a env rest
          (msgs ++ [{ role := "tool", content := s, toolCallId := tc.id }]) with
        ⟨res, msgs2, n2⟩
      simp only [execToolCalls, he, hrec, Prod.mk.injEq] at h
      obtain ⟨h1, h2, _⟩ := h
      rw [h1, h2] at hrec
      obtain ⟨block, hb1, hb2, hb3⟩ := ih _ _ _ hrec
      refine ⟨{ role := "tool", content := s, toolCallId := tc.id } :: block,
        ?_, ?_, ?_⟩
      · rw [hb1]; simp
      · intro m hm
        rcases List.mem_cons.1 hm with h | h
        · rw [h]
        · exact hb2 m h
      · simp [hb3]

/-- Helper: under a well-formed gateway (choices carry assistant messages),
a run of the loop that ends without error appends a sequence of good
chunks to the conversation it started from. -/
theorem runLoop_chunks (a : Agent) (env : Env)
    (hrole : ∀ req resp, env.chat req = Except.ok resp →
      ∀ ch ∈ resp.choices, ch.message.role = "assistant") :
    ∀ fuel msgs r, (runLoop a env fuel msgs).result = Except.ok r →
      ∃ chunks : List (List ChatMessage),
        (runLoop a env fuel msgs).messages = msgs ++ chunks.flatten ∧
        ∀ ck ∈ chunks, GoodChunk ck := by
  intro fuel
  induction fuel with
  | zero =>
    intro msgs r _
    exact ⟨[], by simp [runLoop], by simp⟩
  | succ f ih =>
    intro msgs r hok
    cases hc : env.chat { messages := msgs, tools := a.tools } with
    | error e => simp [runLoop, hc] at hok
    | ok resp =>
      cases hch : resp.choices with
      | nil => simp [runLoop, hc, hch] at hok
      | cons choice restCh =>
        have hcr : choice.message.role = "assistant" :=
          hrole _ resp hc choice (by rw [hch]; exact List.mem_cons_self choice restCh)
        cases htc : choice.message.toolCalls with
        | nil =>
          refine ⟨[[choice.message]], ?_, ?_⟩
          · simp [runLoop, hc, hch, htc]
          · intro ck hck
            rw [List.mem_singleton] at hck
            subst hck
            refine ⟨choice.message, [], rfl, ?_, by simp, by simp [htc]⟩
            rw [hcr]
            decide
        | cons t ts =>
          rcases hexec : execToolCalls a env (t :: ts) (msgs ++ [choice.message]) with
            ⟨res, msgs2, n2⟩
          cases res with
          | error e => simp [runLoop, hc, hch, htc, hexec] at hok
          | ok u =>
            have hok2 : (runLoop a env f msgs2).result = Except.ok r := by
              simpa [runLoop, hc, hch, htc, hexec] using hok
            obtain ⟨chunks', hm', hg'⟩ := ih msgs2 r hok2
            obtain ⟨block, hb1, hb2, hb3⟩ :=
              execToolCalls_ok_block a env (t :: ts) (msgs ++ [choice.message])
                msgs2 n2 (by rw [hexec])
            refine ⟨(choice.message :: block) :: chunks', ?_, ?_⟩
            · have : (runLoop a env (f + 1) msgs).messages
                  = (runLoop a env f msgs2).messages := by
                simp [runLoop, hc, hch, htc, hexec]
              rw [this, hm', hb1]
              simp
            · intro ck hck
              rcases List.mem_cons.1 hck with h | h
              · subst h
                refine ⟨choice.message, block, rfl, ?_, hb2, by rw [hb3, htc]⟩
                rw [hcr]
                decide
              · exact hg' ck h

/-- Helper: a block of tool messages followed by a non-tool (or empty)
remainder is exactly the maximal leading tool run. -/
theorem takeWhile_tool_block (block rest : List ChatMessage)
    (hb : ∀ m ∈ block, m.role = "tool") (hr : HeadNotTool rest) :
    (block ++ rest).takeWhile (fun x => x.role == "tool") = block := by
  induction block with
  | nil =>
    cases rest with
    | nil => rfl
    | cons m _ =>
      have hm : (m.role == "tool") = false := by
        simpa using hr
      simp [List.takeWhile_cons, hm]
  | cons m bl ih =>
    have hm : m.role = "tool" := hb m (List.mem_cons_self m bl)
    have hrest := ih (fun q hq => hb q (List.mem_cons_of_mem m hq))
    simp [List.takeWhile_cons, hm, hrest]

/-- Helper: messages that are not assistant messages contribute nothing to
the conversation invariant. -/
theorem convOK_append_nonassistant (block rest : List ChatMessage)
    (hb : ∀ m ∈ block, m.role ≠ "assistant") :
    convOK (block ++ rest) = convOK rest := by
  induction block with
  | nil => rfl
  | cons m bl ih =>
    have hm : m.role ≠ "assistant" := hb m (List.mem_cons_self m bl)
    have hrest := ih (fun q hq => hb q (List.mem_cons_of_mem m hq))
    simp [convOK, hm, hrest]

/-- Helper: a flattened sequence of good chunks satisfies the conversation
invariant and starts with a non-tool message. -/
theorem convOK_flatten_chunks :
    ∀ chunks : List (List ChatMessage), (∀ c ∈ chunks, GoodChunk c) →
      convOK chunks.flatten = true ∧ HeadNotTool chunks.flatten := by
  intro chunks
  induction chunks with
  | nil => intro _; exact ⟨rfl, trivial⟩
  | cons ck rest ih =>
    intro hg
    obtain ⟨a, block, hck, hrole, hb, hmap⟩ := hg ck (List.mem_cons_self ck rest)
    obtain ⟨hrest, hhead⟩ := ih (fun c hc => hg c (List.mem_cons_of_mem ck hc))
    subst hck
    have hbna : ∀ m ∈ block, m.role ≠ "assistant" := by
      intro m hm
      rw [hb m hm]
      decide
    have htail : convOK (block ++ rest.flatten) = true := by
      rw [convOK_append_nonassistant block rest.flatten hbna]
      exact hrest
    constructor
    · simp only [List.flatten_cons, List.cons_append]
      rw [convOK]
      by_cases hA : a.role = "assistant"
      · rw [if_pos hA, takeWhile_tool_block block rest.flatten hb hhead]
        simp [hmap, htail]
      · rw [if_neg hA]
        simp [htail]
    · simp only [List.flatten_cons, List.cons_append]
      exact hrole

/-- C1: for every run of the agent loop against a well-formed gateway
(every returned choice carries an assistant message) that returns without
error, the conversation it built satisfies the invariant: each assistant
message is immediately followed by exactly one tool message per entry of
its `tool_calls`, with matching `tool_call_id`s, in order. -/
theorem Run_conversation_invariant (a : Agent) (env : Env) (input : String)
    (r : ChatCompletionResponse)
    (hrole : ∀ req resp, env.chat req = Except.ok resp →
      ∀ ch ∈ resp.choices, ch.message.role = "assistant")
    (hok : (a.Run env input).result = Except.ok r) :
    convOK (a.Run env input).messages = true := by
  obtain ⟨chunks, hmsg, hgood⟩ :=
    runLoop_chunks a env hrole a.maxIterations.toNat (initMessages a input) r hok
  rw [Agent.Run, hmsg]
  have h5 := convOK_flatten_chunks chunks hgood
  rw [convOK_append_nonassistant (initMessages a input) chunks.flatten ?_]
  · exact h5.1
  · intro m hm
    rcases List.mem_cons.1 hm with h | h
    · subst h
      exact (by decide : ("system" : String) ≠ "assistant")
    · rw [List.mem_singleton] at h
      subst h
      exact (by decide : ("user" : String) ≠ "assistant")

/-- Witness for C1: the invariant evaluated on a concrete successful run. -/
theorem Run_conversation_invariant_witness :
    convOK (agentEx.Run envNoTools "2+2?").messages = true :=
  Run_conversation_invariant agentEx envNoTools "2+2?" respNoTools
    (fun req resp h ch hch => by
      have h' : respNoTools = resp := by
        simpa [envNoTools] using h
      subst h'
      simp [respNoTools] at hch
      subst hch
      rfl)
    rfl

end TemplateAgent
